import Mathlib

/-!
Verification of the MFT record / attribute management core (fs/ntfs3/record.c).

The record buffer is modelled as a function from byte offsets to byte values
(`Buf`), read and written through little-endian accessors, exactly as the C
code reads and writes the raw record bytes.  The record header fields that the
C code accesses through the `MFT_REC` struct (`total`, `used`, `attr_off`,
`next_attr_id`, `seq`, `flags`) are modelled as structure fields; every byte
operation performed by the code (memmove, memset, field stores) acts on the
attribute area of the buffer, above the fixed header, so the two views never
overlap on the operations modelled here.

External collaborators (the run-list serializer `run_pack`, the block I/O
layer, the record bitmap) are modelled as oracle parameters / effect lists,
following the collaborator contracts stated in the specification.
-/

/-- A raw byte buffer: byte value at each offset.  Values are always read
through `byteAt`, which truncates to a byte, matching `u8` reads. -/
def Buf : Type := Nat → Nat

/-- Read one byte (`u8`). -/
def byteAt (b : Buf) (i : Nat) : Nat := b i % 256

/-- Little-endian `u16` read. -/
def le16 (b : Buf) (o : Nat) : Nat := byteAt b o + 256 * byteAt b (o + 1)

/-- Little-endian `u32` read. -/
def le32 (b : Buf) (o : Nat) : Nat :=
  byteAt b o + 256 * byteAt b (o + 1) + 65536 * byteAt b (o + 2) +
    16777216 * byteAt b (o + 3)

/-- Little-endian `u64` read. -/
def le64 (b : Buf) (o : Nat) : Nat := le32 b o + 4294967296 * le32 b (o + 4)

/-- Store one byte. -/
def writeByte (b : Buf) (o v : Nat) : Buf :=
  fun i => if i = o then v % 256 else b i

/-- Little-endian `u16` store. -/
def writeLE16 (b : Buf) (o v : Nat) : Buf :=
  fun i =>
    if i = o then v % 256
    else if i = o + 1 then v / 256 % 256
    else b i

/-- Little-endian `u32` store. -/
def writeLE32 (b : Buf) (o v : Nat) : Buf :=
  fun i =>
    if i = o then v % 256
    else if i = o + 1 then v / 256 % 256
    else if i = o + 2 then v / 65536 % 256
    else if i = o + 3 then v / 16777216 % 256
    else b i

/-- Little-endian `u64` store (two `u32` stores). -/
def writeLE64 (b : Buf) (o v : Nat) : Buf :=
  writeLE32 (writeLE32 b o (v % 4294967296)) (o + 4) (v / 4294967296)

/-- `memmove(dst, src, n)`: afterwards the destination region holds the bytes
the source region held before the call (overlap-safe semantics). -/
def memmove (b : Buf) (dst src n : Nat) : Buf :=
  fun i => if dst ≤ i ∧ i < dst + n then b (src + (i - dst)) else b i

/-- `memset(dst, v, n)`. -/
def memset (b : Buf) (dst v n : Nat) : Buf :=
  fun i => if dst ≤ i ∧ i < dst + n then v % 256 else b i

/-- Overwrite the region `[dst, dst+n)` with bytes drawn from `src` (used to
model a collaborator writing into a window of the record buffer). -/
def overwrite (b : Buf) (dst n : Nat) (src : Buf) : Buf :=
  fun i => if dst ≤ i ∧ i < dst + n then src i % 256 else b i

/-- `QuadAlign(n) = ((n) + 7) & ~7`: round up to a multiple of 8. -/
def QuadAlign (n : Nat) : Nat := (n + 7) / 8 * 8

/-- Header of one MFT record, plus its raw byte buffer.  The header fields are
the ones `record.c` reads through the `MFT_REC` struct. -/
structure MFT_REC where
  total : Nat
  used : Nat
  attr_off : Nat
  next_attr_id : Nat
  seq : Nat
  flags : Nat
  buf : Buf

/-- The in-memory wrapper `mft_inode`: the record buffer, the dirty flag and
the record number. -/
structure MftInode where
  mrec : MFT_REC
  dirty : Bool
  rno : Nat

/-- The slice of `ntfs_sb_info` this file uses: record size, the volume upcase
table, `sbi->mft.used` and the empty-record template `sbi->new_rec`. -/
structure NtfsSbInfo where
  record_size : Nat
  upcase : Nat → Nat
  mft_used : Nat
  new_rec : MFT_REC

/-- Minimum size of a resident attribute entry (`SIZEOF_RESIDENT`, 0x18). -/
def SIZEOF_RESIDENT : Nat := 24

/-- Minimum size of a non-resident attribute entry (`SIZEOF_NONRESIDENT`). -/
def SIZEOF_NONRESIDENT : Nat := 64

/-- Minimum size of an extended non-resident attribute entry. -/
def SIZEOF_NONRESIDENT_EX : Nat := 72

/-- Modelled from the spec: the minimum record header size bound that
`attr_off` is checked against (`MFTRECORD_FIXUP_OFFSET_1`, the offset of the
fixup array, 0x2A); the macro lives in a header that is not in the sources. -/
def MFTRECORD_FIXUP_OFFSET_1 : Nat := 42

/-- The end-of-attributes sentinel type code (`ATTR_END`, 0xFFFFFFFF). -/
def ATTR_END : Nat := 4294967295

/-- Record number of the MFT itself (`MFT_REC_MFT`). -/
def MFT_REC_MFT : Nat := 0

/-- Modelled from the spec: first record number of the reserved tail range
(`MFT_REC_RESERVED`); the constant lives in a header that is not in the
sources. -/
def MFT_REC_RESERVED : Nat := 11

/-- Modelled from the spec: first non-reserved record number (`MFT_REC_FREE`,
the bound of the small fixed reserved low range); the constant lives in a
header that is not in the sources. -/
def MFT_REC_FREE : Nat := 16

/-- The magic of an in-use record, the bytes "FILE" read as a `u32`
(`NTFS_FILE_SIGNATURE`). -/
def NTFS_FILE_SIGNATURE : Nat := 1162627398

/-- `attr->type` (`u32` at offset 0 of the entry). -/
def attr_type (b : Buf) (a : Nat) : Nat := le32 b a

/-- `attr->size` (`u32` at offset 4). -/
def attr_size (b : Buf) (a : Nat) : Nat := le32 b (a + 4)

/-- `attr->non_res` (`u8` at offset 8). -/
def attr_nonres (b : Buf) (a : Nat) : Nat := byteAt b (a + 8)

/-- `attr->name_len` (`u8` at offset 9). -/
def attr_name_len (b : Buf) (a : Nat) : Nat := byteAt b (a + 9)

/-- `attr->name_off` (`u16` at offset 10). -/
def attr_name_off (b : Buf) (a : Nat) : Nat := le16 b (a + 10)

/-- `attr->flags` (`u16` at offset 12). -/
def attr_flags (b : Buf) (a : Nat) : Nat := le16 b (a + 12)

/-- `attr->id` (`u16` at offset 14). -/
def attr_id (b : Buf) (a : Nat) : Nat := le16 b (a + 14)

/-- `attr->res.data_size` (`u32` at offset 16 of a resident entry). -/
def res_data_size (b : Buf) (a : Nat) : Nat := le32 b (a + 16)

/-- `attr->res.data_off` (`u16` at offset 20 of a resident entry). -/
def res_data_off (b : Buf) (a : Nat) : Nat := le16 b (a + 20)

/-- `attr->nres.svcn` (`u64` at offset 16 of a non-resident entry). -/
def nres_svcn (b : Buf) (a : Nat) : Nat := le64 b (a + 16)

/-- `attr->nres.evcn` (`u64` at offset 24 of a non-resident entry). -/
def nres_evcn (b : Buf) (a : Nat) : Nat := le64 b (a + 24)

/-- `attr->nres.run_off` (`u16` at offset 32 of a non-resident entry). -/
def nres_run_off (b : Buf) (a : Nat) : Nat := le16 b (a + 32)

/-- `attr->nres.c_unit` (`u16` at offset 34 of a non-resident entry). -/
def nres_c_unit (b : Buf) (a : Nat) : Nat := le16 b (a + 34)

/-- `is_rec_inuse`: bit 0 of the record flags (`RECORD_FLAG_IN_USE`). -/
def is_rec_inuse (r : MFT_REC) : Bool := r.flags % 2 = 1

/-- `clear_rec_inuse`: clear bit 0 of the record flags. -/
def clear_rec_inuse (r : MFT_REC) : MFT_REC := { r with flags := r.flags / 2 * 2 }

/-- Modelled from the spec: `is_attr_ext` (header macro not in the sources)
tests the compressed / encrypted / sparse attribute flag bits
(0x0001, 0x4000, 0x8000). -/
def is_attr_ext (b : Buf) (a : Nat) : Bool := Nat.land (attr_flags b a) 49153 != 0

/-- Modelled from the spec: `is_attr_indexed` (header macro not in the
sources) — whether the attribute type/entry allows equal `(type, name)`
duplicates; a resident entry with the indexed flag (`u8` at offset 22,
bit 0). -/
def is_attr_indexed (b : Buf) (a : Nat) : Bool :=
  attr_nonres b a == 0 && byteAt b (a + 22) % 2 == 1

/-- The structural checks `mi_enum_attr` performs on the candidate attribute
at offset `off` (the shared tail of both branches of `mi_enum_attr`).

The C code computes these checks in `u32` arithmetic.  Sums that can wrap
modulo 2^32 in executions whose reads stay inside the record buffer — the
boundary check `off + asize > used`, the resident payload check
`data_off + data_size > asize`, and the non-resident minimum checks
`asize + 8 < SIZEOF_NONRESIDENT(_EX)` — carry an explicit `% 2^32` here, so
an attribute whose enormous declared size wraps the boundary check is
accepted exactly as the C code accepts it.  `off + 8` is left unbounded: it
can only wrap after the C code has already formed a far out-of-bounds
attribute pointer and read through it. -/
def checkAttr (r : MFT_REC) (off : Nat) : Option Nat :=
  let b := r.buf
  let used := r.used
  let asize := attr_size b off
  if used < off + 8 then none
  else if attr_type b off = ATTR_END then none
  else if attr_type b off % 16 ≠ 0 ∨ 256 < attr_type b off then none
  else if used < (off + asize) % 4294967296 then none
  else if attr_nonres b off = 0 then
    if asize < SIZEOF_RESIDENT then none
    else if asize < res_data_off b off then none
    else if asize < (res_data_off b off + res_data_size b off) % 4294967296 then none
    else some off
  else
    if attr_name_len b off ≠ 0 ∧
        nres_run_off b off < attr_name_off b off + 2 * attr_name_len b off then none
    else if nres_svcn b off ≠ 0 ∨ is_attr_ext b off = false then
      if (asize + 8) % 4294967296 < SIZEOF_NONRESIDENT then none
      else if nres_c_unit b off ≠ 0 then none
      else some off
    else if (asize + 8) % 4294967296 < SIZEOF_NONRESIDENT_EX then none
    else some off

/-- `mi_enum_attr`: return the first (`attr = none`) or next attribute of the
record, or `none` at the end of the list or on any structural violation.
Attribute references are byte offsets into the record buffer. -/
def mi_enum_attr (r : MFT_REC) (attr : Option Nat) : Option Nat :=
  match attr with
  | none =>
    if r.total < r.used then none
    else if r.used ≤ r.attr_off ∨ r.attr_off < MFTRECORD_FIXUP_OFFSET_1 ∨
        r.attr_off % 8 ≠ 0 then none
    else if is_rec_inuse r = false then none
    else checkAttr r r.attr_off
  | some a =>
    if r.used ≤ a then none
    else if attr_size r.buf a < SIZEOF_RESIDENT then none
    else checkAttr r (a + attr_size r.buf a)

/-- Iterate `mi_enum_attr` from a given position, collecting the attribute
offsets.  Each enumeration step advances the offset by at least
`SIZEOF_RESIDENT` and every returned offset is below `used`, so fuel
`r.used + 1` is never the binding constraint. -/
def attrListAux (r : MFT_REC) : Nat → Option Nat → List Nat
  | 0, _ => []
  | fuel + 1, cur =>
    match mi_enum_attr r cur with
    | none => []
    | some a => a :: attrListAux r fuel (some a)

/-- All attribute offsets of a record, in enumeration order. -/
def attrList (r : MFT_REC) : List Nat := attrListAux r (r.used + 1) none

/-- The attribute ids of a record, in enumeration order. -/
def attrIds (r : MFT_REC) : List Nat := (attrList r).map (fun a => attr_id r.buf a)

/-- One pass of the exhausted-counter scan of `mi_new_attt_id`: walk the
attribute ids; on the first id equal to `free` report a hit (the code then
restarts the enumeration with `free + 1`), otherwise fold the id into the
running maximum. -/
def newIdPass (free maxId : Nat) : List Nat → Bool × Nat
  | [] => (false, maxId)
  | t :: ts => if t = free then (true, maxId) else newIdPass free (max maxId t) ts

/-- The restart loop of the exhausted-counter scan of `mi_new_attt_id`.  The
record is not mutated during the scan, so every restart enumerates the same
id list; a hit strictly increases `free`, and `free` never exceeds the number
of attributes, so fuel `ids.length + 1` is never the binding constraint.
Returns (allocated id, value stored into `next_attr_id`). -/
def newIdLoop (ids : List Nat) : Nat → Nat → Nat → Nat × Nat
  | 0, free, maxId => (free, maxId + 1)
  | fuel + 1, free, maxId =>
    let p := newIdPass free maxId ids
    if p.1 then newIdLoop ids fuel (free + 1) p.2 else (free, p.2 + 1)

/-- `mi_new_attt_id`: hand out an unused attribute id.  Fast path: the
counter is below 0x7FFF.  Slow path: full scan with restarts, then reset the
counter to one past the maximum id seen and mark the record dirty. -/
def mi_new_attt_id (mi : MftInode) : Nat × MftInode :=
  let r := mi.mrec
  let free_id := r.next_attr_id
  if free_id < 32767 then
    (free_id, { mi with mrec := { r with next_attr_id := free_id + 1 } })
  else
    let ids := attrIds r
    let p := newIdLoop ids (ids.length + 1) 0 0
    (p.1, { mi with mrec := { r with next_attr_id := p.2 }, dirty := true })

/-- The attribute name: `name_len` 16-bit characters at `attr + name_off`
(`attr_name`). -/
def attrName (b : Buf) (a : Nat) : List Nat :=
  (List.range (attr_name_len b a)).map (fun i => le16 b (a + attr_name_off b a + 2 * i))

/-- Three-way comparison of two lists of 16-bit characters, shorter list
first on a common prefix. -/
def cmpU16 : List Nat → List Nat → Int
  | [], [] => 0
  | [], _ :: _ => -1
  | _ :: _, [] => 1
  | x :: xs, y :: ys => if x < y then -1 else if y < x then 1 else cmpU16 xs ys

/-- Modelled from the spec: `ntfs_cmp_names` (defined outside the sources)
compares two names character by character after applying the upcase table
(identity when no table is supplied), with the length breaking ties. -/
def ntfs_cmp_names (x y : List Nat) (up : Option (Nat → Nat)) : Int :=
  match up with
  | some u => cmpU16 (x.map u) (y.map u)
  | none => cmpU16 x y

/-- `compare_attr`: order an existing attribute against a requested
`(type, name)` pair — type codes first, then the name case-insensitively via
the upcase table, then case-sensitively. -/
def compare_attr (b : Buf) (a : Nat) (type : Nat) (name : List Nat)
    (upcase : Nat → Nat) : Int :=
  let diff : Int := (attr_type b a : Int) - (type : Int)
  if diff ≠ 0 then diff
  else
    let d2 := ntfs_cmp_names (attrName b a) name (some upcase)
    if d2 ≠ 0 then d2
    else ntfs_cmp_names (attrName b a) name none

/-- The insertion-point scan of `mi_insert_attr` over the enumerated
attribute offsets: `some (some a)` means break at attribute `a`,
`some none` means the enumeration ended (insert before the terminator), and
`none` means an equal `(type, name)` attribute exists whose type does not
allow duplicates (insert fails). -/
def insertScan (b : Buf) (type : Nat) (name : List Nat) (upcase : Nat → Nat) :
    List Nat → Option (Option Nat)
  | [] => some none
  | a :: rest =>
    let diff := compare_attr b a type name upcase
    if 0 < diff then some (some a)
    else if diff < 0 then insertScan b type name upcase rest
    else if is_attr_indexed b a = false then none
    else some (some a)

/-- Store a list of 16-bit characters at offset `o` (the `memmove` of the
name bytes into the new entry). -/
def writeU16List (b : Buf) (o : Nat) : List Nat → Buf
  | [] => b
  | x :: xs => writeU16List (writeLE16 b o x) (o + 2) xs

/-- `mi_insert_attr`: reserve space for a new attribute.  Fails (`none`)
when the entry does not fit in the record or when an equal `(type, name)`
attribute exists whose type does not allow duplicates; otherwise shifts the
tail up, zero-fills the new entry, populates its header and name, grows
`used` and marks the record dirty.  Returns the result together with the
resulting state (the state is unchanged on failure). -/
def mi_insert_attr (sbi : NtfsSbInfo) (mi : MftInode) (type : Nat)
    (name : List Nat) (asize : Nat) (name_off : Nat) : Option Nat × MftInode :=
  let r := mi.mrec
  let used := r.used
  if sbi.record_size < used + asize then (none, mi)
  else
    match insertScan r.buf type name sbi.upcase (attrList r) with
    | none => (none, mi)
    | some pos =>
      let aoff := match pos with | none => used - 8 | some a => a
      let tail := match pos with | none => 8 | some a => used - a
      let idmi := mi_new_attt_id mi
      let b1 := memmove idmi.2.mrec.buf (aoff + asize) aoff tail
      let b2 := memset b1 aoff 0 asize
      let b3 := writeLE32 b2 aoff type
      let b4 := writeLE32 b3 (aoff + 4) asize
      let b5 := writeByte b4 (aoff + 9) name.length
      let b6 := writeLE16 b5 (aoff + 10) name_off
      let b7 := writeLE16 b6 (aoff + 14) idmi.1
      let b8 := writeU16List b7 (aoff + name_off) name
      (some aoff,
        { idmi.2 with
          mrec := { idmi.2.mrec with buf := b8, used := used + asize },
          dirty := true })

/-- The id filter of `mi_find_attr` (`id && *id != attr->id`): true when an
id was requested and the attribute's id differs. -/
def idMismatch (b : Buf) (a : Nat) (id : Option Nat) : Bool :=
  match id with
  | none => false
  | some i => attr_id b a != i

/-- `mi_find_attr`, fuelled walk: enumerate forward, stop with `none` as soon
as an attribute type exceeds the requested one, skip non-matching entries,
return the first full match. -/
def findAux (r : MFT_REC) (type : Nat) (name : List Nat) (id : Option Nat) :
    Nat → Option Nat → Option Nat
  | 0, _ => none
  | fuel + 1, cur =>
    match mi_enum_attr r cur with
    | none => none
    | some a =>
      if type < attr_type r.buf a then none
      else if attr_type r.buf a < type then findAux r type name id fuel (some a)
      else if attr_name_len r.buf a ≠ name.length then findAux r type name id fuel (some a)
      else if name.length ≠ 0 ∧ attrName r.buf a ≠ name then findAux r type name id fuel (some a)
      else if idMismatch r.buf a id then findAux r type name id fuel (some a)
      else some a

/-- `mi_find_attr`: find an attribute by type, name and (optional) id,
walking forward from after `start`. -/
def mi_find_attr (r : MFT_REC) (start : Option Nat) (type : Nat)
    (name : List Nat) (id : Option Nat) : Option Nat :=
  findAux r type name id (r.used + 1) start

/-- The common tail of `mi_resize_attr`: store the new `used`, the new
attribute size, and — for resident attributes — the new resident data size,
then mark the record dirty. -/
def resizeFinish (mi : MftInode) (aoff used2 nsize rsize2 : Nat) (b : Buf) :
    Bool × MftInode :=
  let b2 := writeLE32 b (aoff + 4) nsize
  let b3 := if attr_nonres b2 aoff = 0 then writeLE32 b2 (aoff + 16) rsize2 else b2
  (true, { mi with mrec := { mi.mrec with buf := b3, used := used2 }, dirty := true })

/-- `mi_resize_attr`: grow or shrink the attribute at offset `aoff` by
`bytes` (signed), rounding the delta up to a multiple of 8; shifts the tail,
zero-fills on growth, and adjusts `used`, the attribute size and the
resident data size.  Returns the success flag together with the resulting
state (the state is unchanged on failure). -/
def mi_resize_attr (mi : MftInode) (aoff : Nat) (bytes : Int) : Bool × MftInode :=
  let r := mi.mrec
  let used := r.used
  let asize := attr_size r.buf aoff
  let rsize := res_data_size r.buf aoff
  if used < aoff + asize ∨ used ≤ aoff then (false, mi)
  else if bytes = 0 then (true, mi)
  else
    let next := aoff + asize
    let tail := used - aoff - asize
    if 0 < bytes then
      let dsize := QuadAlign bytes.toNat
      if r.total < used + dsize then (false, mi)
      else
        let b1 := memmove r.buf (next + dsize) next tail
        let b2 := memset b1 next 0 dsize
        resizeFinish mi aoff (used + dsize) (asize + dsize) (rsize + dsize) b2
    else
      let dsize := QuadAlign (-bytes).toNat
      if asize < dsize then (false, mi)
      else
        let b1 := memmove r.buf (next - dsize) next tail
        resizeFinish mi aoff (used - dsize) (asize - dsize)
          (rsize + 4294967296 - dsize) b1

/-- `mi_pack_runs`: repack the run list of the non-resident attribute at
offset `aoff`.  The run-list serializer `run_pack` is an external
collaborator, modelled by two oracles: `packRes` is its return value
(`error e` for a negative status, `ok (bytes_used, clusters_packed)` on
success) and `packBytes` supplies the bytes it leaves in the window
`[aoff + run_off, aoff + run_off + run_size + dsize)` it was handed.
The tail after the attribute is first relocated to the very end of the
record; on failure the relocation is undone and the status propagated; on
success the tail is shifted back to just after the repacked run list and the
attribute size, `evcn` and `used` are updated and the record marked dirty. -/
def mi_pack_runs (sbi : NtfsSbInfo) (mi : MftInode) (aoff : Nat)
    (packRes : Except Int (Nat × Nat)) (packBytes : Buf) : Int × MftInode :=
  let r := mi.mrec
  let svcn := nres_svcn r.buf aoff % 4294967296
  let used := r.used
  let asize := attr_size r.buf aoff
  let next := aoff + asize
  let run_off := nres_run_off r.buf aoff
  let run_size := asize - run_off
  let tail := used - aoff - asize
  let dsize := sbi.record_size - used
  let b1 := memmove r.buf (next + dsize) next tail
  let b2 := overwrite b1 (aoff + run_off) (run_size + dsize) packBytes
  match packRes with
  | Except.error e =>
    (e, { mi with mrec := { r with buf := memmove b2 next (next + dsize) tail } })
  | Except.ok bp =>
    let new_run_size := QuadAlign bp.1
    let b3 := memmove b2 (next + new_run_size - run_size) (next + dsize) tail
    let b4 := writeLE32 b3 (aoff + 4) (asize + new_run_size - run_size)
    let b5 := writeLE64 b4 (aoff + 24) ((svcn + bp.2 + 4294967295) % 4294967296)
    (0,
      { mi with
        mrec := { r with buf := b5, used := used + new_run_size - run_size },
        dirty := true })

/-- The sequence number `mi_format_new` stamps on the freshly formatted
record.  `readRes` is the oracle for the `mi_read` of the existing occupant:
`none` when the read fails, `some (sign, seq)` for the occupant's record
signature and sequence number. -/
def formatNewSeq (sbi : NtfsSbInfo) (rno : Nat) (readRes : Option (Nat × Nat)) : Nat :=
  if rno = MFT_REC_MFT then 1
  else if rno < MFT_REC_FREE then rno
  else if sbi.mft_used ≤ rno then 1
  else
    match readRes with
    | none => 1
    | some sr =>
      if sr.1 = NTFS_FILE_SIGNATURE then
        if (sr.2 + 1) % 65536 = 0 then 1 else (sr.2 + 1) % 65536
      else 1

/-- `mi_format_new`: overwrite the buffer with the canonical empty-record
template, stamp the computed sequence number and the flags (with the in-use
bit set), and mark the record dirty. -/
def mi_format_new (sbi : NtfsSbInfo) (rno : Nat) (flags : Nat)
    (readRes : Option (Nat × Nat)) : MftInode :=
  { mrec :=
      { sbi.new_rec with
        seq := formatNewSeq sbi rno readRes,
        flags := Nat.lor 1 flags },
    dirty := true,
    rno := rno }

/-- Observable calls `record.c` makes on its collaborators: the bulk MFT tail
clear, a record write with its wait argument (`0` = do not wait for
completion), and freeing a slot in the record bitmap. -/
inductive MiEffect where
  | clearMftTail : Nat → Nat → MiEffect
  | writeRec : Nat → MiEffect
  | markRecFree : Nat → MiEffect
deriving DecidableEq

/-- `mi_write`: no-op when the record is not dirty; otherwise write it
through the storage collaborator (success modelled by the `writeOk` oracle)
with the given wait argument, clearing the dirty flag only on success. -/
def mi_write (mi : MftInode) (wait : Nat) (writeOk : Bool) :
    Int × MftInode × List MiEffect :=
  if mi.dirty = false then (0, mi, [])
  else if writeOk then (0, { mi with dirty := false }, [MiEffect.writeRec wait])
  else (-5, mi, [MiEffect.writeRec wait])

/-- `mi_mark_free`: for record numbers in the reserved range delegate to the
bulk tail clear and drop the dirty flag; otherwise clear the in-use flag,
mark dirty, write the record with wait argument `0`, and free the slot in
the record bitmap. -/
def mi_mark_free (mi : MftInode) (writeOk : Bool) : MftInode × List MiEffect :=
  if MFT_REC_RESERVED ≤ mi.rno ∧ mi.rno < MFT_REC_FREE then
    ({ mi with dirty := false }, [MiEffect.clearMftTail mi.rno (mi.rno + 1)])
  else
    let mi1 := { mi with mrec := clear_rec_inuse mi.mrec, dirty := true }
    let w := mi_write mi1 0 writeOk
    (w.2.1, w.2.2 ++ [MiEffect.markRecFree mi.rno])

/-- One minimal valid resident attribute entry (24 bytes) with the given
type code and id: size 24, no name, empty payload with `data_off` 24. -/
def resAttrBytes (t id : Nat) : List Nat :=
  [t % 256, t / 256 % 256, 0, 0, 24, 0, 0, 0,
   0, 0, 0, 0, 0, 0, id % 256, id / 256 % 256,
   0, 0, 0, 0, 24, 0, 0, 0]

/-- Attribute-area bytes of a record with four resident attributes of ids
0, 1, 3, 4 followed by the end sentinel. -/
def idsBytes : List Nat :=
  resAttrBytes 16 0 ++ resAttrBytes 32 1 ++ resAttrBytes 48 3 ++
    resAttrBytes 64 4 ++ [255, 255, 255, 255, 0, 0, 0, 0]

/-- A concrete in-use 1024-byte record holding four attributes with ids
{0, 1, 3, 4}, with an exhausted id counter. -/
def idsRec : MFT_REC :=
  { total := 1024, used := 152, attr_off := 48, next_attr_id := 32767,
    seq := 1, flags := 1,
    buf := fun i => if i < 48 then 0 else List.getD idsBytes (i - 48) 0 }

/-- The wrapper for `idsRec`. -/
def idsMi : MftInode := { mrec := idsRec, dirty := false, rno := 30 }

/-- Attribute-area bytes of a record with one non-resident attribute
(entry size 80, `run_off` 64, `svcn` 0, no name) and the end sentinel. -/
def nrBytes : List Nat :=
  [128, 0, 0, 0, 80, 0, 0, 0, 1, 0, 0, 0, 0, 0, 0, 0] ++
    List.replicate 16 0 ++ [64, 0, 0, 0] ++ List.replicate 44 0 ++
    [255, 255, 255, 255, 0, 0, 0, 0]

/-- A concrete in-use 1024-byte record holding one non-resident attribute at
offset 48. -/
def nrRec : MFT_REC :=
  { total := 1024, used := 136, attr_off := 48, next_attr_id := 1,
    seq := 1, flags := 1,
    buf := fun i => if i < 48 then 0 else List.getD nrBytes (i - 48) 0 }

/-- The wrapper for `nrRec`. -/
def nrMi : MftInode := { mrec := nrRec, dirty := false, rno := 30 }

/-- A trivial empty-record template for the concrete superblock. -/
def newRecTemplate : MFT_REC :=
  { total := 1024, used := 56, attr_off := 48, next_attr_id := 0,
    seq := 0, flags := 0, buf := fun _ => 0 }

/-- A concrete superblock: 1024-byte records, identity upcase table, 20
records in use in the MFT. -/
def sbi0 : NtfsSbInfo :=
  { record_size := 1024, upcase := fun c => c, mft_used := 20,
    new_rec := newRecTemplate }

/-- Attribute-area bytes of a record whose second attribute declares the
enormous size 0xFFFFFFF8: the 32-bit boundary check `off + asize > used`
wraps (72 + 0xFFFFFFF8 = 64 mod 2^32) and passes. -/
def wrapBytes : List Nat :=
  resAttrBytes 16 0 ++
    [32, 0, 0, 0, 248, 255, 255, 255, 0, 0, 0, 0, 0, 0, 1, 0,
     0, 0, 0, 0, 0, 0, 0, 0]

/-- A concrete in-use record whose attribute at offset 72 declares size
0xFFFFFFF8, extending far past `used` = 152. -/
def wrapRec : MFT_REC :=
  { total := 1024, used := 152, attr_off := 48, next_attr_id := 1,
    seq := 1, flags := 1,
    buf := fun i => if i < 48 then 0 else List.getD wrapBytes (i - 48) 0 }

/-! Basic facts about the byte-buffer primitives. -/

theorem byteAt_lt (b : Buf) (i : Nat) : byteAt b i < 256 :=
  Nat.mod_lt _ (by omega)

theorem le16_lt (b : Buf) (o : Nat) : le16 b o < 65536 := by
  have h1 := byteAt_lt b o
  have h2 := byteAt_lt b (o + 1)
  simp only [le16]
  omega

theorem le32_lt (b : Buf) (o : Nat) : le32 b o < 4294967296 := by
  have h1 := byteAt_lt b o
  have h2 := byteAt_lt b (o + 1)
  have h3 := byteAt_lt b (o + 2)
  have h4 := byteAt_lt b (o + 3)
  simp only [le32]
  omega

theorem byteAt_congr (b1 b2 : Buf) (i : Nat) (h : b1 i = b2 i) :
    byteAt b1 i = byteAt b2 i := by
  simp only [byteAt, h]

theorem le16_congr (b1 b2 : Buf) (o : Nat)
    (h : ∀ i, o ≤ i → i < o + 2 → b1 i = b2 i) : le16 b1 o = le16 b2 o := by
  simp only [le16, byteAt]
  rw [h o (by omega) (by omega), h (o + 1) (by omega) (by omega)]

theorem le32_congr (b1 b2 : Buf) (o : Nat)
    (h : ∀ i, o ≤ i → i < o + 4 → b1 i = b2 i) : le32 b1 o = le32 b2 o := by
  simp only [le32, byteAt]
  rw [h o (by omega) (by omega), h (o + 1) (by omega) (by omega),
    h (o + 2) (by omega) (by omega), h (o + 3) (by omega) (by omega)]

theorem le64_congr (b1 b2 : Buf) (o : Nat)
    (h : ∀ i, o ≤ i → i < o + 8 → b1 i = b2 i) : le64 b1 o = le64 b2 o := by
  simp only [le64]
  rw [le32_congr b1 b2 o (fun i h1 h2 => h i (by omega) (by omega)),
    le32_congr b1 b2 (o + 4) (fun i h1 h2 => h i (by omega) (by omega))]

theorem writeLE32_out (b : Buf) (o v i : Nat) (h : i < o ∨ o + 4 ≤ i) :
    writeLE32 b o v i = b i := by
  simp only [writeLE32]
  rw [if_neg (by omega), if_neg (by omega), if_neg (by omega), if_neg (by omega)]

theorem writeLE32_at0 (b : Buf) (o v : Nat) : writeLE32 b o v o = v % 256 := by
  have h0 : (o = o) = True := by simp
  simp only [writeLE32, h0, if_true]

theorem writeLE32_at1 (b : Buf) (o v : Nat) :
    writeLE32 b o v (o + 1) = v / 256 % 256 := by
  have h0 : ¬ (o + 1 = o) := by omega
  simp [writeLE32, h0]

theorem writeLE32_at2 (b : Buf) (o v : Nat) :
    writeLE32 b o v (o + 2) = v / 65536 % 256 := by
  have h0 : ¬ (o + 2 = o) := by omega
  have h1 : ¬ (o + 2 = o + 1) := by omega
  simp [writeLE32, h0, h1]

theorem writeLE32_at3 (b : Buf) (o v : Nat) :
    writeLE32 b o v (o + 3) = v / 16777216 % 256 := by
  have h0 : ¬ (o + 3 = o) := by omega
  have h1 : ¬ (o + 3 = o + 1) := by omega
  have h2 : ¬ (o + 3 = o + 2) := by omega
  simp [writeLE32, h0, h1, h2]

theorem le32_writeLE32 (b : Buf) (o v : Nat) :
    le32 (writeLE32 b o v) o = v % 4294967296 := by
  simp only [le32, byteAt, writeLE32_at0, writeLE32_at1, writeLE32_at2,
    writeLE32_at3]
  omega

theorem le32_writeLE32_out (b : Buf) (o v o2 : Nat)
    (h : o2 + 4 ≤ o ∨ o + 4 ≤ o2) : le32 (writeLE32 b o v) o2 = le32 b o2 :=
  le32_congr _ _ _ (fun i h1 h2 => writeLE32_out b o v i (by omega))

theorem writeLE64_out (b : Buf) (o v i : Nat) (h : i < o ∨ o + 8 ≤ i) :
    writeLE64 b o v i = b i := by
  simp only [writeLE64]
  rw [writeLE32_out _ _ _ _ (by omega), writeLE32_out _ _ _ _ (by omega)]

theorem le64_writeLE64 (b : Buf) (o v : Nat) :
    le64 (writeLE64 b o v) o = v % 18446744073709551616 := by
  simp only [le64, writeLE64]
  rw [le32_congr (writeLE32 (writeLE32 b o (v % 4294967296)) (o + 4)
        (v / 4294967296)) (writeLE32 b o (v % 4294967296)) o
      (fun i h1 h2 => writeLE32_out _ _ _ _ (by omega)),
    le32_writeLE32, le32_writeLE32]
  omega

theorem le32_writeLE64_out (b : Buf) (o v o2 : Nat)
    (h : o2 + 4 ≤ o ∨ o + 8 ≤ o2) : le32 (writeLE64 b o v) o2 = le32 b o2 :=
  le32_congr _ _ _ (fun i h1 h2 => writeLE64_out b o v i (by omega))

theorem memmove_out (b : Buf) (dst src n i : Nat) (h : i < dst ∨ dst + n ≤ i) :
    memmove b dst src n i = b i := by
  simp only [memmove]
  rw [if_neg (by omega)]

theorem memmove_in (b : Buf) (dst src n i : Nat) (h : dst ≤ i ∧ i < dst + n) :
    memmove b dst src n i = b (src + (i - dst)) := by
  simp only [memmove]
  rw [if_pos h]

theorem memset_out (b : Buf) (dst v n i : Nat) (h : i < dst ∨ dst + n ≤ i) :
    memset b dst v n i = b i := by
  simp only [memset]
  rw [if_neg (by omega)]

theorem overwrite_out (b : Buf) (dst n : Nat) (src : Buf) (i : Nat)
    (h : i < dst ∨ dst + n ≤ i) : overwrite b dst n src i = b i := by
  simp only [overwrite]
  rw [if_neg (by omega)]

theorem quadAlign_ge (n : Nat) : n ≤ QuadAlign n := by
  simp only [QuadAlign]
  omega

theorem quadAlign_eq_of_dvd (n : Nat) (h : n % 8 = 0) : QuadAlign n = n := by
  simp only [QuadAlign]
  omega

theorem quadAlign_le (n m : Nat) (h1 : n ≤ m) (h2 : m % 8 = 0) :
    QuadAlign n ≤ m := by
  simp only [QuadAlign]
  omega

/-!
C1 — a capacity-violating insert fails and leaves the record untouched.
-/

/-- C1: on a valid record (`total = record_size`), an insert whose entry
size does not fit (`used + asize > total`) returns `none` and leaves `used`,
every byte of the buffer, and the dirty flag exactly as they were. -/
theorem mi_insert_attr_capacity_reject (sbi : NtfsSbInfo) (mi : MftInode)
    (type : Nat) (name : List Nat) (asize name_off : Nat)
    (htot : mi.mrec.total = sbi.record_size)
    (h : mi.mrec.total < mi.mrec.used + asize) :
    (mi_insert_attr sbi mi type name asize name_off).1 = none ∧
    (mi_insert_attr sbi mi type name asize name_off).2.mrec.used = mi.mrec.used ∧
    (∀ i, (mi_insert_attr sbi mi type name asize name_off).2.mrec.buf i
        = mi.mrec.buf i) ∧
    (mi_insert_attr sbi mi type name asize name_off).2.dirty = mi.dirty := by
  have hc : sbi.record_size < mi.mrec.used + asize := by omega
  simp [mi_insert_attr, hc]

/-- C1 witness: a concrete capacity-violating insert. -/
theorem mi_insert_attr_capacity_reject_witness :
    idsMi.mrec.total = sbi0.record_size ∧
    idsMi.mrec.total < idsMi.mrec.used + 2000 ∧
    (mi_insert_attr sbi0 idsMi 80 [] 2000 24).1 = none :=
  ⟨rfl, by decide,
    (mi_insert_attr_capacity_reject sbi0 idsMi 80 [] 2000 24 rfl (by decide)).1⟩

/-!
C10 — a failed insert never consumes an attribute id.
-/

/-- C10: whenever `mi_insert_attr` fails (returns `none`) — for lack of
room or because an equal `(type, name)` attribute does not allow duplicates —
the record's `next_attr_id` counter is unchanged, because the id is only
allocated after all failure checks have passed. -/
theorem mi_insert_attr_fail_keeps_next_id (sbi : NtfsSbInfo) (mi : MftInode)
    (type : Nat) (name : List Nat) (asize name_off : Nat)
    (h : (mi_insert_attr sbi mi type name asize name_off).1 = none) :
    (mi_insert_attr sbi mi type name asize name_off).2.mrec.next_attr_id
      = mi.mrec.next_attr_id := by
  by_cases hc : sbi.record_size < mi.mrec.used + asize
  · simp only [mi_insert_attr, if_pos hc]
  · simp only [mi_insert_attr, if_neg hc] at h ⊢
    cases hscan : insertScan mi.mrec.buf type name sbi.upcase (attrList mi.mrec) with
    | none => simp only [hscan]
    | some pos =>
      rw [hscan] at h
      simp at h

/-- C10 witness: a concrete failing insert leaves the counter at 0x7FFF. -/
theorem mi_insert_attr_fail_keeps_next_id_witness :
    (mi_insert_attr sbi0 idsMi 80 [] 2000 24).1 = none ∧
    (mi_insert_attr sbi0 idsMi 80 [] 2000 24).2.mrec.next_attr_id
      = idsMi.mrec.next_attr_id :=
  ⟨by decide, mi_insert_attr_fail_keeps_next_id sbi0 idsMi 80 [] 2000 24 (by decide)⟩

/-!
C6 — enumeration fails closed on structural violations.
-/

set_option maxHeartbeats 2000000 in
/-- C6 (amended): the first `mi_enum_attr` call returns `none` when the
record is not in use, when `used` exceeds `total`, or when `attr_off` is out
of range, below the minimum header size, or misaligned; and on a follow-up
call the current attribute's structural violations — a declared size
extending past `used` whose 32-bit boundary sum does not wrap, a malformed
type code, or a size below the resident / non-resident minimum — also yield
`none` (never an error).  A declared size so large that the 32-bit sum
`off + size` wraps can pass the boundary check (see
`mi_enum_attr_size_wrap_cex`). -/
theorem mi_enum_attr_validation (r : MFT_REC) (a : Nat) :
    (is_rec_inuse r = false → mi_enum_attr r none = none) ∧
    (r.total < r.used → mi_enum_attr r none = none) ∧
    (r.used ≤ r.attr_off ∨ r.attr_off < MFTRECORD_FIXUP_OFFSET_1 ∨
        r.attr_off % 8 ≠ 0 → mi_enum_attr r none = none) ∧
    (a < r.used → SIZEOF_RESIDENT ≤ attr_size r.buf a →
      ((r.used < a + attr_size r.buf a + attr_size r.buf (a + attr_size r.buf a) →
        a + attr_size r.buf a + attr_size r.buf (a + attr_size r.buf a)
          < 4294967296 →
          mi_enum_attr r (some a) = none) ∧
       (attr_type r.buf (a + attr_size r.buf a) % 16 ≠ 0 ∨
            256 < attr_type r.buf (a + attr_size r.buf a) →
          mi_enum_attr r (some a) = none) ∧
       (attr_nonres r.buf (a + attr_size r.buf a) = 0 →
          attr_size r.buf (a + attr_size r.buf a) < SIZEOF_RESIDENT →
          mi_enum_attr r (some a) = none) ∧
       (attr_nonres r.buf (a + attr_size r.buf a) ≠ 0 →
          attr_size r.buf (a + attr_size r.buf a) + 8 < SIZEOF_NONRESIDENT →
          mi_enum_attr r (some a) = none))) := by
  have c1 : SIZEOF_RESIDENT = 24 := rfl
  have c2 : SIZEOF_NONRESIDENT = 64 := rfl
  have c3 : SIZEOF_NONRESIDENT_EX = 72 := rfl
  refine ⟨?_, ?_, ?_, ?_⟩
  · intro h
    simp only [mi_enum_attr]
    split_ifs <;> simp_all
  · intro h
    simp only [mi_enum_attr]
    split_ifs <;> simp_all
  · intro h
    simp only [mi_enum_attr]
    split_ifs <;> simp_all
  · intro ha hs
    have hstep : mi_enum_attr r (some a) = checkAttr r (a + attr_size r.buf a) := by
      simp only [mi_enum_attr]
      rw [if_neg (by omega), if_neg (by omega)]
    refine ⟨?_, ?_, ?_, ?_⟩
    · intro h h9
      rw [hstep]
      simp only [checkAttr]
      split_ifs <;> first | rfl | omega
    · intro h
      rw [hstep]
      simp only [checkAttr]
      split_ifs <;> first | rfl | omega
    · intro h1 h2
      rw [hstep]
      simp only [checkAttr]
      split_ifs <;> first | rfl | omega
    · intro h1 h2
      rw [hstep]
      simp only [checkAttr]
      split_ifs <;> first | rfl | omega

/-- C6 witness: concrete structurally invalid records on which enumeration
returns `none`. -/
theorem mi_enum_attr_validation_witness :
    mi_enum_attr { idsRec with flags := 0 } none = none ∧
    mi_enum_attr { idsRec with used := 2000 } none = none ∧
    mi_enum_attr { idsRec with attr_off := 50 } none = none ∧
    mi_enum_attr { idsRec with buf := writeLE32 idsRec.buf 76 3000 } (some 48) = none :=
  ⟨(mi_enum_attr_validation { idsRec with flags := 0 } 0).1 (by decide),
   (mi_enum_attr_validation { idsRec with used := 2000 } 0).2.1 (by decide),
   (mi_enum_attr_validation { idsRec with attr_off := 50 } 0).2.2.1 (by decide),
   ((mi_enum_attr_validation { idsRec with buf := writeLE32 idsRec.buf 76 3000 } 48).2.2.2
      (by decide) (by decide)).1 (by decide) (by decide)⟩

/-- C6 counterexample: on a record whose attribute at offset 72 declares the
size 0xFFFFFFF8 — extending far past `used` = 152 — the 32-bit boundary sum
wraps to 64 and the enumerator returns the corrupt attribute instead of
`none`. -/
theorem mi_enum_attr_size_wrap_cex :
    attr_size wrapRec.buf 72 = 4294967288 ∧
    wrapRec.used < 72 + attr_size wrapRec.buf 72 ∧
    mi_enum_attr wrapRec (some 48) = some 72 := by
  decide

/-!
C8 — the sequence number computed by `mi_format_new`.
-/

/-- C8 counterexample: record number 0 lies in the reserved low range
(`rno < MFT_REC_FREE`), yet `mi_format_new` stamps sequence number 1 on it,
not the record number 0 the claim requires. -/
theorem mi_format_new_rec_zero_cex :
    MFT_REC_MFT < MFT_REC_FREE ∧
    (mi_format_new sbi0 MFT_REC_MFT 0 none).mrec.seq = 1 ∧
    (mi_format_new sbi0 MFT_REC_MFT 0 none).mrec.seq ≠ MFT_REC_MFT := by
  decide

/-- C8 (amended): `mi_format_new` computes the sequence number as follows —
record number 0 gets 1; every other record number in the reserved low range
gets the record number itself; a record number beyond the metadata file's
used range gets 1; otherwise, when the occupant read fails or the occupant
does not carry the in-use record signature the sequence is 1, and when it
reads back with the signature it is the occupant's sequence plus one (as a
16-bit value), with a wrap to 0 replaced by 1. -/
theorem mi_format_new_seq_spec (sbi : NtfsSbInfo) (rno flags : Nat)
    (readRes : Option (Nat × Nat)) :
    (rno = MFT_REC_MFT → (mi_format_new sbi rno flags readRes).mrec.seq = 1) ∧
    (MFT_REC_MFT < rno → rno < MFT_REC_FREE →
       (mi_format_new sbi rno flags readRes).mrec.seq = rno) ∧
    (MFT_REC_FREE ≤ rno → sbi.mft_used ≤ rno →
       (mi_format_new sbi rno flags readRes).mrec.seq = 1) ∧
    (MFT_REC_FREE ≤ rno → rno < sbi.mft_used → readRes = none →
       (mi_format_new sbi rno flags readRes).mrec.seq = 1) ∧
    (∀ sign s, MFT_REC_FREE ≤ rno → rno < sbi.mft_used →
       readRes = some (sign, s) → sign = NTFS_FILE_SIGNATURE →
       (mi_format_new sbi rno flags readRes).mrec.seq =
         (if (s + 1) % 65536 = 0 then 1 else (s + 1) % 65536)) ∧
    (∀ sign s, MFT_REC_FREE ≤ rno → rno < sbi.mft_used →
       readRes = some (sign, s) → sign ≠ NTFS_FILE_SIGNATURE →
       (mi_format_new sbi rno flags readRes).mrec.seq = 1) ∧
    (mi_format_new sbi rno flags readRes).dirty = true := by
  have c0 : MFT_REC_MFT = 0 := rfl
  have c1 : MFT_REC_FREE = 16 := rfl
  refine ⟨?_, ?_, ?_, ?_, ?_, ?_, rfl⟩
  · intro h
    simp [mi_format_new, formatNewSeq, h]
  · intro h1 h2
    simp only [mi_format_new, formatNewSeq]
    rw [if_neg (by omega), if_pos (by omega)]
  · intro h1 h2
    simp only [mi_format_new, formatNewSeq]
    rw [if_neg (by omega), if_neg (by omega), if_pos (by omega)]
  · intro h1 h2 h3
    simp only [mi_format_new, formatNewSeq]
    rw [if_neg (by omega), if_neg (by omega), if_neg (by omega), h3]
  · intro sign s h1 h2 h3 h4
    simp only [mi_format_new, formatNewSeq]
    rw [if_neg (by omega), if_neg (by omega), if_neg (by omega), h3]
    simp [h4]
  · intro sign s h1 h2 h3 h4
    simp only [mi_format_new, formatNewSeq]
    rw [if_neg (by omega), if_neg (by omega), if_neg (by omega), h3]
    simp [h4]

/-- C8 witness: concrete instances of each branch of the amended sequence
computation. -/
theorem mi_format_new_seq_spec_witness :
    (mi_format_new sbi0 5 0 none).mrec.seq = 5 ∧
    (mi_format_new sbi0 25 0 none).mrec.seq = 1 ∧
    (mi_format_new sbi0 17 0 (some (NTFS_FILE_SIGNATURE, 7))).mrec.seq =
      (if (7 + 1) % 65536 = 0 then 1 else (7 + 1) % 65536) ∧
    (mi_format_new sbi0 17 0 (some (0, 7))).mrec.seq = 1 :=
  ⟨(mi_format_new_seq_spec sbi0 5 0 none).2.1 (by decide) (by decide),
   (mi_format_new_seq_spec sbi0 25 0 none).2.2.1 (by decide) (by decide),
   (mi_format_new_seq_spec sbi0 17 0 (some (NTFS_FILE_SIGNATURE, 7))).2.2.2.2.1
     NTFS_FILE_SIGNATURE 7 (by decide) (by decide) rfl rfl,
   (mi_format_new_seq_spec sbi0 17 0 (some (0, 7))).2.2.2.2.2.1
     0 7 (by decide) (by decide) rfl (by decide)⟩

/-!
C9 — what `mi_mark_free` does with the record.
-/

/-- C9 counterexample: for a record outside the reserved range the claim
requires a synchronous (wait-for-completion) write, but the only write
`mi_mark_free` issues carries wait argument 0 — it does not wait for
completion. -/
theorem mi_mark_free_wait_zero_cex :
    MFT_REC_FREE ≤ idsMi.rno ∧
    (mi_mark_free idsMi true).2 =
      [MiEffect.writeRec 0, MiEffect.markRecFree 30] := by
  decide

/-- C9 (amended): for record numbers outside the reserved range,
`mi_mark_free` clears the record's in-use flag, marks it dirty, issues a
non-waiting write of the cleared record (wait argument 0, dirty stays set
exactly when the write fails) and then asks the record-space allocator to
free the slot; for record numbers inside the reserved range it delegates to
the bulk tail clear and just drops the dirty flag. -/
theorem mi_mark_free_spec (mi : MftInode) (writeOk : Bool) :
    (MFT_REC_RESERVED ≤ mi.rno → mi.rno < MFT_REC_FREE →
       mi_mark_free mi writeOk =
         ({ mi with dirty := false }, [MiEffect.clearMftTail mi.rno (mi.rno + 1)])) ∧
    (¬ (MFT_REC_RESERVED ≤ mi.rno ∧ mi.rno < MFT_REC_FREE) →
       ((mi_mark_free mi writeOk).2 =
          [MiEffect.writeRec 0, MiEffect.markRecFree mi.rno] ∧
        is_rec_inuse (mi_mark_free mi writeOk).1.mrec = false ∧
        (mi_mark_free mi writeOk).1.dirty = !writeOk)) := by
  constructor
  · intro h1 h2
    simp only [mi_mark_free]
    rw [if_pos ⟨h1, h2⟩]
  · intro h
    simp only [mi_mark_free, mi_write, if_neg h]
    cases writeOk with
    | true =>
      refine ⟨?_, ?_, ?_⟩ <;> simp [is_rec_inuse, clear_rec_inuse] <;> omega
    | false =>
      refine ⟨?_, ?_, ?_⟩ <;> simp [is_rec_inuse, clear_rec_inuse] <;> omega

/-- C9 witness: both branches at concrete records. -/
theorem mi_mark_free_spec_witness :
    mi_mark_free { idsMi with rno := 12 } true =
      ({ idsMi with rno := 12, dirty := false },
        [MiEffect.clearMftTail 12 13]) ∧
    ((mi_mark_free idsMi true).2 =
        [MiEffect.writeRec 0, MiEffect.markRecFree idsMi.rno] ∧
      is_rec_inuse (mi_mark_free idsMi true).1.mrec = false ∧
      (mi_mark_free idsMi true).1.dirty = !true) :=
  ⟨(mi_mark_free_spec { idsMi with rno := 12 } true).1 (by decide) (by decide),
   (mi_mark_free_spec idsMi true).2 (by decide)⟩

/-!
C2 — the attribute id allocator.
-/

theorem le_foldl_max (l : List Nat) : ∀ a : Nat, a ≤ List.foldl max a l := by
  induction l with
  | nil => intro a; simp
  | cons t ts ih =>
    intro a
    simp only [List.foldl]
    exact le_trans (Nat.le_max_left a t) (ih (max a t))

theorem foldl_max_shift (l : List Nat) : ∀ a : Nat,
    List.foldl max a l = max a (List.foldl max 0 l) := by
  induction l with
  | nil => intro a; simp
  | cons t ts ih =>
    intro a
    simp only [List.foldl]
    rw [ih (max a t), ih (max 0 t)]
    simp [Nat.max_assoc]

theorem newIdPass_hit (free maxId : Nat) (l : List Nat) :
    (newIdPass free maxId l).1 = true ↔ free ∈ l := by
  induction l generalizing maxId with
  | nil => simp [newIdPass]
  | cons t ts ih =>
    by_cases h : t = free
    · subst h
      simp [newIdPass]
    · simp only [newIdPass, if_neg h, List.mem_cons]
      rw [ih (max maxId t)]
      constructor
      · exact fun h2 => Or.inr h2
      · rintro (h2 | h2)
        · exact absurd h2.symm h
        · exact h2

theorem newIdPass_no_hit (free maxId : Nat) (l : List Nat)
    (h : (newIdPass free maxId l).1 = false) :
    (newIdPass free maxId l).2 = List.foldl max maxId l := by
  induction l generalizing maxId with
  | nil => simp [newIdPass]
  | cons t ts ih =>
    by_cases ht : t = free
    · rw [newIdPass, if_pos ht] at h
      exact absurd h (by simp)
    · rw [newIdPass, if_neg ht] at h ⊢
      simp only [List.foldl]
      exact ih (max maxId t) h

theorem newIdPass_snd_le (free maxId : Nat) (l : List Nat) :
    maxId ≤ (newIdPass free maxId l).2 ∧
    (newIdPass free maxId l).2 ≤ List.foldl max maxId l := by
  induction l generalizing maxId with
  | nil => simp [newIdPass]
  | cons t ts ih =>
    by_cases ht : t = free
    · rw [newIdPass, if_pos ht]
      exact ⟨le_refl maxId,
        le_trans (Nat.le_max_left maxId t) (le_foldl_max ts (max maxId t))⟩
    · rw [newIdPass, if_neg ht]
      simp only [List.foldl]
      obtain ⟨h1, h2⟩ := ih (max maxId t)
      exact ⟨le_trans (Nat.le_max_left maxId t) h1, h2⟩

theorem mem_below_length (ids : List Nat) (free : Nat)
    (h : ∀ m, m < free → m ∈ ids) : free ≤ ids.length := by
  have hsub : Finset.range free ⊆ ids.toFinset := by
    intro x hx
    rw [List.mem_toFinset]
    exact h x (Finset.mem_range.mp hx)
  have h1 := Finset.card_le_card hsub
  rw [Finset.card_range] at h1
  exact le_trans h1 (List.toFinset_card_le ids)

theorem newIdLoop_spec (ids : List Nat) : ∀ (fuel free maxId : Nat),
    (∀ m, m < free → m ∈ ids) →
    ids.length + 1 ≤ free + fuel →
    maxId ≤ List.foldl max 0 ids →
    ((newIdLoop ids fuel free maxId).1 ∉ ids ∧
     (∀ m, m < (newIdLoop ids fuel free maxId).1 → m ∈ ids) ∧
     (newIdLoop ids fuel free maxId).2 = List.foldl max 0 ids + 1) := by
  intro fuel
  induction fuel with
  | zero =>
    intro free maxId hinv hfuel hmax
    exact absurd (mem_below_length ids free hinv) (by omega)
  | succ fuel ih =>
    intro free maxId hinv hfuel hmax
    by_cases hp : (newIdPass free maxId ids).1 = true
    · have hfree : free ∈ ids := (newIdPass_hit free maxId ids).mp hp
      have hsnd := (newIdPass_snd_le free maxId ids).2
      have hle : (newIdPass free maxId ids).2 ≤ List.foldl max 0 ids := by
        rw [foldl_max_shift ids maxId, Nat.max_eq_right hmax] at hsnd
        exact hsnd
      have hinv2 : ∀ m, m < free + 1 → m ∈ ids := by
        intro m hm
        rcases Nat.lt_succ_iff_lt_or_eq.mp hm with h2 | h2
        · exact hinv m h2
        · exact h2 ▸ hfree
      simp only [newIdLoop, hp, if_true]
      exact ih (free + 1) (newIdPass free maxId ids).2 hinv2 (by omega) hle
    · have hfree : free ∉ ids := fun hc => hp ((newIdPass_hit free maxId ids).mpr hc)
      have hp2 : (newIdPass free maxId ids).1 = false := by
        cases h2 : (newIdPass free maxId ids).1
        · rfl
        · exact absurd h2 hp
      have heq := newIdPass_no_hit free maxId ids hp2
      rw [foldl_max_shift ids maxId, Nat.max_eq_right hmax] at heq
      simp only [newIdLoop, hp2]
      rw [if_neg (by simp)]
      exact ⟨hfree, hinv, by rw [heq]⟩

/-- C2: `mi_new_attt_id` — with the counter below 0x7FFF it returns the
counter and increments it; with the counter exhausted it scans the
attributes and returns the minimum id not used by any of them (searching
from 0) while resetting the counter to one past the maximum id seen; on the
concrete record whose attributes hold ids {0, 1, 3, 4} with an exhausted
counter, it returns 2 and resets the counter to 5. -/
theorem mi_new_attt_id_spec (mi : MftInode) :
    (mi.mrec.next_attr_id < 32767 →
       (mi_new_attt_id mi).1 = mi.mrec.next_attr_id ∧
       (mi_new_attt_id mi).2.mrec.next_attr_id = mi.mrec.next_attr_id + 1) ∧
    (32767 ≤ mi.mrec.next_attr_id →
       ((mi_new_attt_id mi).1 ∉ attrIds mi.mrec ∧
        (∀ m, m < (mi_new_attt_id mi).1 → m ∈ attrIds mi.mrec) ∧
        (mi_new_attt_id mi).2.mrec.next_attr_id
          = List.foldl max 0 (attrIds mi.mrec) + 1)) ∧
    (attrIds idsMi.mrec = [0, 1, 3, 4] ∧
     (mi_new_attt_id idsMi).1 = 2 ∧
     (mi_new_attt_id idsMi).2.mrec.next_attr_id = 5) := by
  refine ⟨?_, ?_, by decide⟩
  · intro h
    simp [mi_new_attt_id, h]
  · intro h
    have hn : ¬ (mi.mrec.next_attr_id < 32767) := by omega
    simp only [mi_new_attt_id, if_neg hn]
    exact newIdLoop_spec (attrIds mi.mrec) ((attrIds mi.mrec).length + 1) 0 0
      (fun m hm => absurd hm (Nat.not_lt_zero m)) (by omega) (Nat.zero_le _)

/-- C2 witness: the fast path on a counter of 5 and the slow path on the
{0, 1, 3, 4} record. -/
theorem mi_new_attt_id_spec_witness :
    ((mi_new_attt_id { idsMi with mrec := { idsRec with next_attr_id := 5 } }).1 = 5 ∧
     (mi_new_attt_id
        { idsMi with mrec := { idsRec with next_attr_id := 5 } }).2.mrec.next_attr_id
       = 6) ∧
    ((mi_new_attt_id idsMi).1 ∉ attrIds idsMi.mrec ∧
     (∀ m, m < (mi_new_attt_id idsMi).1 → m ∈ attrIds idsMi.mrec) ∧
     (mi_new_attt_id idsMi).2.mrec.next_attr_id
       = List.foldl max 0 (attrIds idsMi.mrec) + 1) :=
  ⟨(mi_new_attt_id_spec
      { idsMi with mrec := { idsRec with next_attr_id := 5 } }).1 (by decide),
   (mi_new_attt_id_spec idsMi).2.1 (by decide)⟩

/-!
C7 — lookup by (type, name, optional id) with early stop.
-/

theorem attrName_length (b : Buf) (a : Nat) :
    (attrName b a).length = attr_name_len b a := by
  simp [attrName]

theorem idMismatch_false (b : Buf) (a : Nat) (id : Option Nat)
    (h : idMismatch b a id = false) : ∀ i, id = some i → attr_id b a = i := by
  intro i hi
  subst hi
  simpa [idMismatch] using h

theorem idMismatch_eq_false (b : Buf) (a : Nat) (id : Option Nat)
    (h : ∀ i, id = some i → attr_id b a = i) : idMismatch b a id = false := by
  cases id with
  | none => rfl
  | some i => simp [idMismatch, h i rfl]

theorem findAux_succ (r : MFT_REC) (type : Nat) (name : List Nat)
    (id : Option Nat) (fuel : Nat) (cur : Option Nat) (b : Nat)
    (he : mi_enum_attr r cur = some b) :
    findAux r type name id (fuel + 1) cur =
      (if type < attr_type r.buf b then none
       else if attr_type r.buf b < type then findAux r type name id fuel (some b)
       else if attr_name_len r.buf b ≠ name.length then
         findAux r type name id fuel (some b)
       else if name.length ≠ 0 ∧ attrName r.buf b ≠ name then
         findAux r type name id fuel (some b)
       else if idMismatch r.buf b id then findAux r type name id fuel (some b)
       else some b) := by
  rw [findAux, he]

theorem findAux_sound (r : MFT_REC) (type : Nat) (name : List Nat)
    (id : Option Nat) : ∀ (fuel : Nat) (cur : Option Nat) (a : Nat),
    findAux r type name id fuel cur = some a →
    attr_type r.buf a = type ∧ attrName r.buf a = name ∧
    (∀ i, id = some i → attr_id r.buf a = i) := by
  intro fuel
  induction fuel with
  | zero =>
    intro cur a h
    exact absurd h (by simp [findAux])
  | succ fuel ih =>
    intro cur a h
    cases he : mi_enum_attr r cur with
    | none =>
      rw [findAux, he] at h
      exact absurd h (by simp)
    | some b =>
      rw [findAux_succ r type name id fuel cur b he] at h
      by_cases h1 : type < attr_type r.buf b
      · rw [if_pos h1] at h
        exact absurd h (by simp)
      · rw [if_neg h1] at h
        by_cases h2 : attr_type r.buf b < type
        · rw [if_pos h2] at h
          exact ih (some b) a h
        · rw [if_neg h2] at h
          by_cases h3 : attr_name_len r.buf b ≠ name.length
          · rw [if_pos h3] at h
            exact ih (some b) a h
          · rw [if_neg h3] at h
            by_cases h4 : name.length ≠ 0 ∧ attrName r.buf b ≠ name
            · rw [if_pos h4] at h
              exact ih (some b) a h
            · rw [if_neg h4] at h
              push_neg at h3 h4
              have hname : attrName r.buf b = name := by
                by_cases h5 : name.length = 0
                · have hlen : (attrName r.buf b).length = 0 := by
                    rw [attrName_length, h3, h5]
                  rw [List.length_eq_zero] at hlen
                  rw [hlen, List.length_eq_zero.mp h5]
                · exact h4 h5
              by_cases h5 : idMismatch r.buf b id = true
              · rw [if_pos h5] at h
                exact ih (some b) a h
              · rw [if_neg h5] at h
                simp only [Option.some.injEq] at h
                subst h
                exact ⟨by omega, hname,
                  idMismatch_false r.buf b id (by simpa using h5)⟩

/-- C7: `mi_find_attr` — any hit has exactly the requested type, a
byte-exact name equal to the requested one, and the requested id when one is
supplied; the walk stops with `none` as soon as an enumerated attribute's
type strictly exceeds the requested type, without examining any later
attribute; and the first enumerated attribute after `start` that matches on
all requested components is returned. -/
theorem mi_find_attr_spec :
    (∀ (r : MFT_REC) (start : Option Nat) (type : Nat) (name : List Nat)
        (id : Option Nat) (a : Nat),
       mi_find_attr r start type name id = some a →
       attr_type r.buf a = type ∧ attrName r.buf a = name ∧
       (∀ i, id = some i → attr_id r.buf a = i)) ∧
    (∀ (r : MFT_REC) (start : Option Nat) (type : Nat) (name : List Nat)
        (id : Option Nat) (a : Nat),
       mi_enum_attr r start = some a → type < attr_type r.buf a →
       mi_find_attr r start type name id = none) ∧
    (∀ (r : MFT_REC) (start : Option Nat) (type : Nat) (name : List Nat)
        (id : Option Nat) (a : Nat),
       mi_enum_attr r start = some a → attr_type r.buf a = type →
       attrName r.buf a = name →
       (∀ i, id = some i → attr_id r.buf a = i) →
       mi_find_attr r start type name id = some a) := by
  refine ⟨?_, ?_, ?_⟩
  · intro r start type name id a h
    exact findAux_sound r type name id (r.used + 1) start a h
  · intro r start type name id a he ht
    rw [mi_find_attr, findAux_succ r type name id r.used start a he, if_pos ht]
  · intro r start type name id a he ht hname hid
    have hlen : attr_name_len r.buf a = name.length := by
      rw [← attrName_length r.buf a, hname]
    rw [mi_find_attr, findAux_succ r type name id r.used start a he,
      if_neg (by omega), if_neg (by omega), if_neg (by omega),
      if_neg (by simp [hname]),
      if_neg (by simp [idMismatch_eq_false r.buf a id hid])]

/-- C7 witness: finding the type-32 attribute of the concrete record by id,
and the early stop on a requested type lying between two present types. -/
theorem mi_find_attr_spec_witness :
    attr_type idsRec.buf 72 = 32 ∧
    attrName idsRec.buf 72 = [] ∧
    mi_find_attr idsRec (some 48) 32 [] (some 1) = some 72 ∧
    mi_find_attr idsRec (some 96) 50 [] none = none :=
  ⟨by decide, by decide,
   (mi_find_attr_spec).2.2 idsRec (some 48) 32 [] (some 1) 72 (by decide)
     (by decide) (by decide) (fun i hi => by cases hi; decide),
   (mi_find_attr_spec).2.1 idsRec (some 96) 50 [] none 120 (by decide) (by decide)⟩

/-!
C3 — grow-then-shrink resize round trip.
-/

theorem quadAlign_mod (n : Nat) : QuadAlign n % 8 = 0 := by
  simp only [QuadAlign]
  omega

theorem quadAlign_pos (n : Nat) (h : 0 < n) : 8 ≤ QuadAlign n := by
  simp only [QuadAlign]
  omega

theorem resizeFinish_size (mi : MftInode) (aoff used2 nsize rsize2 : Nat)
    (b : Buf) (hb : nsize < 4294967296) :
    attr_size (resizeFinish mi aoff used2 nsize rsize2 b).2.mrec.buf aoff
      = nsize := by
  simp only [resizeFinish, attr_size]
  by_cases hnr : attr_nonres (writeLE32 b (aoff + 4) nsize) aoff = 0
  · rw [if_pos hnr, le32_writeLE32_out _ _ _ _ (by omega), le32_writeLE32]
    omega
  · rw [if_neg hnr, le32_writeLE32]
    omega

/-- A successful grow: when the reference is in range and the rounded delta
fits, `mi_resize_attr` succeeds, `used` and the attribute size grow by the
quad-aligned delta, and `total` is untouched. -/
theorem mi_resize_attr_grow (mi : MftInode) (aoff n : Nat) (hn : 0 < n)
    (htot : mi.mrec.total < 4294967296)
    (hc1 : ¬ (mi.mrec.used < aoff + attr_size mi.mrec.buf aoff ∨
        mi.mrec.used ≤ aoff))
    (hc2 : ¬ (mi.mrec.total < mi.mrec.used + QuadAlign n)) :
    (mi_resize_attr mi aoff (n : Int)).1 = true ∧
    (mi_resize_attr mi aoff (n : Int)).2.mrec.used
      = mi.mrec.used + QuadAlign n ∧
    (mi_resize_attr mi aoff (n : Int)).2.mrec.total = mi.mrec.total ∧
    attr_size (mi_resize_attr mi aoff (n : Int)).2.mrec.buf aoff
      = attr_size mi.mrec.buf aoff + QuadAlign n := by
  have hb0 : ¬ ((n : Int) = 0) := by omega
  have hbpos : (0 : Int) < (n : Int) := by omega
  have hrw : mi_resize_attr mi aoff (n : Int) =
      resizeFinish mi aoff (mi.mrec.used + QuadAlign n)
        (attr_size mi.mrec.buf aoff + QuadAlign n)
        (res_data_size mi.mrec.buf aoff + QuadAlign n)
        (memset (memmove mi.mrec.buf
            (aoff + attr_size mi.mrec.buf aoff + QuadAlign n)
            (aoff + attr_size mi.mrec.buf aoff)
            (mi.mrec.used - aoff - attr_size mi.mrec.buf aoff))
          (aoff + attr_size mi.mrec.buf aoff) 0 (QuadAlign n)) := by
    simp only [mi_resize_attr, Int.toNat_natCast]
    rw [if_neg hc1, if_neg hb0, if_pos hbpos, if_neg hc2]
  rw [hrw]
  exact ⟨rfl, rfl, rfl,
    resizeFinish_size _ _ _ _ _ _ (by omega)⟩

/-- A successful shrink by a quad-aligned amount: `mi_resize_attr` succeeds
and `used` and the attribute size shrink by exactly that amount. -/
theorem mi_resize_attr_shrink (mi : MftInode) (aoff q : Nat)
    (hq8 : 8 ≤ q) (hqm : q % 8 = 0)
    (hc1 : aoff + attr_size mi.mrec.buf aoff ≤ mi.mrec.used)
    (hao : aoff < mi.mrec.used)
    (hge : q ≤ attr_size mi.mrec.buf aoff) :
    (mi_resize_attr mi aoff (-(q : Int))).1 = true ∧
    (mi_resize_attr mi aoff (-(q : Int))).2.mrec.used = mi.mrec.used - q ∧
    attr_size (mi_resize_attr mi aoff (-(q : Int))).2.mrec.buf aoff
      = attr_size mi.mrec.buf aoff - q := by
  have hb0 : ¬ ((-(q : Int)) = 0) := by omega
  have hbpos : ¬ ((0 : Int) < (-(q : Int))) := by omega
  have hnc1 : ¬ (mi.mrec.used < aoff + attr_size mi.mrec.buf aoff ∨
      mi.mrec.used ≤ aoff) := by omega
  have htn : (-(-(q : Int))).toNat = q := by simp
  have hrw : mi_resize_attr mi aoff (-(q : Int)) =
      resizeFinish mi aoff (mi.mrec.used - q)
        (attr_size mi.mrec.buf aoff - q)
        (res_data_size mi.mrec.buf aoff + 4294967296 - q)
        (memmove mi.mrec.buf (aoff + attr_size mi.mrec.buf aoff - q)
          (aoff + attr_size mi.mrec.buf aoff)
          (mi.mrec.used - aoff - attr_size mi.mrec.buf aoff)) := by
    simp only [mi_resize_attr]
    rw [if_neg hnc1, if_neg hb0, if_neg hbpos, htn,
      quadAlign_eq_of_dvd q hqm, if_neg (by omega)]
  have hsz : attr_size mi.mrec.buf aoff < 4294967296 := le32_lt _ _
  rw [hrw]
  exact ⟨rfl, rfl, resizeFinish_size _ _ _ _ _ _ (by omega)⟩

/-- C3: a successful `resize(attr, +N)` (N > 0) followed by
`resize(attr, -round_up_to_8(N))` succeeds and restores both the record's
`used` field and the attribute's declared size to their original values. -/
theorem mi_resize_attr_roundtrip (mi : MftInode) (aoff n : Nat)
    (hn : 0 < n) (htot : mi.mrec.total < 4294967296)
    (h : (mi_resize_attr mi aoff (n : Int)).1 = true) :
    (mi_resize_attr (mi_resize_attr mi aoff (n : Int)).2 aoff
        (-(QuadAlign n : Int))).1 = true ∧
    (mi_resize_attr (mi_resize_attr mi aoff (n : Int)).2 aoff
        (-(QuadAlign n : Int))).2.mrec.used = mi.mrec.used ∧
    attr_size (mi_resize_attr (mi_resize_attr mi aoff (n : Int)).2 aoff
        (-(QuadAlign n : Int))).2.mrec.buf aoff
      = attr_size mi.mrec.buf aoff := by
  by_cases hc1 : mi.mrec.used < aoff + attr_size mi.mrec.buf aoff ∨
      mi.mrec.used ≤ aoff
  · exfalso
    simp only [mi_resize_attr] at h
    rw [if_pos hc1] at h
    exact absurd h (by simp)
  · by_cases hc2 : mi.mrec.total < mi.mrec.used + QuadAlign n
    · exfalso
      simp only [mi_resize_attr, Int.toNat_natCast] at h
      rw [if_neg hc1, if_neg (show ¬ ((n : Int) = 0) by omega),
        if_pos (show (0 : Int) < (n : Int) by omega), if_pos hc2] at h
      exact absurd h (by simp)
    · obtain ⟨hga, hgu, hgt, hgs⟩ := mi_resize_attr_grow mi aoff n hn htot hc1 hc2
      have h2 := mi_resize_attr_shrink (mi_resize_attr mi aoff (n : Int)).2
        aoff (QuadAlign n) (quadAlign_pos n hn) (quadAlign_mod n)
        (by rw [hgs, hgu]; omega) (by rw [hgu]; omega) (by rw [hgs]; omega)
      refine ⟨h2.1, ?_, ?_⟩
      · rw [h2.2.1, hgu]
        omega
      · rw [h2.2.2, hgs]
        omega

/-- C3 witness: growing the first attribute of the concrete record by 13
bytes and shrinking it by 16 restores `used` = 152 and size = 24. -/
theorem mi_resize_attr_roundtrip_witness :
    (mi_resize_attr idsMi 48 (13 : Int)).1 = true ∧
    (mi_resize_attr (mi_resize_attr idsMi 48 (13 : Int)).2 48
        (-(QuadAlign 13 : Int))).1 = true ∧
    (mi_resize_attr (mi_resize_attr idsMi 48 (13 : Int)).2 48
        (-(QuadAlign 13 : Int))).2.mrec.used = idsMi.mrec.used ∧
    attr_size (mi_resize_attr (mi_resize_attr idsMi 48 (13 : Int)).2 48
        (-(QuadAlign 13 : Int))).2.mrec.buf 48
      = attr_size idsMi.mrec.buf 48 :=
  ⟨by decide,
   (mi_resize_attr_roundtrip idsMi 48 13 (by decide) (by decide) (by decide)).1,
   (mi_resize_attr_roundtrip idsMi 48 13 (by decide) (by decide) (by decide)).2.1,
   (mi_resize_attr_roundtrip idsMi 48 13 (by decide) (by decide) (by decide)).2.2⟩

/-!
C4, C5 — run packing.
-/

theorem quadAlign_le_of_le (n m : Nat) (h1 : n ≤ m) (h2 : m % 8 = 0) :
    QuadAlign n ≤ m := by
  simp only [QuadAlign]
  omega

theorem pack_tail_reads (b : Buf) (aoff vsz vev : Nat)
    (hsz : vsz < 4294967296) :
    attr_size (writeLE64 (writeLE32 b (aoff + 4) vsz) (aoff + 24) vev) aoff
      = vsz ∧
    nres_evcn (writeLE64 (writeLE32 b (aoff + 4) vsz) (aoff + 24) vev) aoff
      = vev % 18446744073709551616 := by
  constructor
  · show le32 _ (aoff + 4) = vsz
    rw [le32_writeLE64_out _ _ _ _ (by omega), le32_writeLE32]
    omega
  · exact le64_writeLE64 _ _ _

/-- C4: a successful `mi_pack_runs` that packed `plen` clusters (the
serializer used `bytes` bytes of the window it was handed) returns 0, sets
the attribute's ending cluster to `svcn + plen - 1`, adjusts the attribute's
declared size and the record's `used` by the quad-aligned change in run-list
size, marks the record dirty, and keeps `used` within the record capacity;
`plen` is whatever the serializer managed — possibly less than requested. -/
theorem mi_pack_runs_success_spec (sbi : NtfsSbInfo) (mi : MftInode)
    (aoff bytes plen : Nat) (packBytes : Buf)
    (h1 : aoff + attr_size mi.mrec.buf aoff ≤ mi.mrec.used)
    (h2 : mi.mrec.used ≤ sbi.record_size)
    (h3 : nres_run_off mi.mrec.buf aoff ≤ attr_size mi.mrec.buf aoff)
    (h4 : mi.mrec.used % 8 = 0)
    (h5 : attr_size mi.mrec.buf aoff % 8 = 0)
    (h6 : nres_run_off mi.mrec.buf aoff % 8 = 0)
    (h7 : sbi.record_size % 8 = 0)
    (h8 : bytes ≤ (attr_size mi.mrec.buf aoff - nres_run_off mi.mrec.buf aoff)
        + (sbi.record_size - mi.mrec.used))
    (h9 : 1 ≤ plen)
    (h10 : nres_svcn mi.mrec.buf aoff % 4294967296 + plen ≤ 4294967296)
    (hrs : sbi.record_size < 4294967296) :
    (mi_pack_runs sbi mi aoff (Except.ok (bytes, plen)) packBytes).1 = 0 ∧
    (mi_pack_runs sbi mi aoff (Except.ok (bytes, plen)) packBytes).2.dirty
      = true ∧
    (mi_pack_runs sbi mi aoff (Except.ok (bytes, plen)) packBytes).2.mrec.used
      = mi.mrec.used + QuadAlign bytes
        - (attr_size mi.mrec.buf aoff - nres_run_off mi.mrec.buf aoff) ∧
    attr_size
        (mi_pack_runs sbi mi aoff (Except.ok (bytes, plen)) packBytes).2.mrec.buf
        aoff
      = attr_size mi.mrec.buf aoff + QuadAlign bytes
        - (attr_size mi.mrec.buf aoff - nres_run_off mi.mrec.buf aoff) ∧
    nres_evcn
        (mi_pack_runs sbi mi aoff (Except.ok (bytes, plen)) packBytes).2.mrec.buf
        aoff
      = nres_svcn mi.mrec.buf aoff % 4294967296 + plen - 1 ∧
    (mi_pack_runs sbi mi aoff (Except.ok (bytes, plen)) packBytes).2.mrec.used
      ≤ sbi.record_size := by
  have hq : QuadAlign bytes ≤
      (attr_size mi.mrec.buf aoff - nres_run_off mi.mrec.buf aoff)
        + (sbi.record_size - mi.mrec.used) :=
    quadAlign_le_of_le _ _ h8 (by omega)
  have hbound : attr_size mi.mrec.buf aoff + QuadAlign bytes
      - (attr_size mi.mrec.buf aoff - nres_run_off mi.mrec.buf aoff)
      < 4294967296 := by omega
  have hreads := pack_tail_reads
    (memmove
      (overwrite
        (memmove mi.mrec.buf
          (aoff + attr_size mi.mrec.buf aoff + (sbi.record_size - mi.mrec.used))
          (aoff + attr_size mi.mrec.buf aoff)
          (mi.mrec.used - aoff - attr_size mi.mrec.buf aoff))
        (aoff + nres_run_off mi.mrec.buf aoff)
        ((attr_size mi.mrec.buf aoff - nres_run_off mi.mrec.buf aoff)
          + (sbi.record_size - mi.mrec.used)) packBytes)
      (aoff + attr_size mi.mrec.buf aoff + QuadAlign bytes
        - (attr_size mi.mrec.buf aoff - nres_run_off mi.mrec.buf aoff))
      (aoff + attr_size mi.mrec.buf aoff + (sbi.record_size - mi.mrec.used))
      (mi.mrec.used - aoff - attr_size mi.mrec.buf aoff))
    aoff
    (attr_size mi.mrec.buf aoff + QuadAlign bytes
      - (attr_size mi.mrec.buf aoff - nres_run_off mi.mrec.buf aoff))
    ((nres_svcn mi.mrec.buf aoff % 4294967296 + plen + 4294967295) % 4294967296)
    hbound
  refine ⟨rfl, rfl, rfl, ?_, ?_, ?_⟩
  · exact hreads.1
  · have heq : nres_evcn
        (mi_pack_runs sbi mi aoff (Except.ok (bytes, plen)) packBytes).2.mrec.buf
        aoff
        = ((nres_svcn mi.mrec.buf aoff % 4294967296 + plen + 4294967295)
            % 4294967296) % 18446744073709551616 := hreads.2
    rw [heq]
    omega
  · have hused : (mi_pack_runs sbi mi aoff
        (Except.ok (bytes, plen)) packBytes).2.mrec.used
        = mi.mrec.used + QuadAlign bytes
          - (attr_size mi.mrec.buf aoff - nres_run_off mi.mrec.buf aoff) := rfl
    rw [hused]
    omega

/-- C5: when the run-list serializer fails, `mi_pack_runs` undoes the
temporary relocation — every byte strictly below the run-list window and the
whole relocated tail are back to their original values, in particular the
attribute's declared size and `evcn` — leaves `used` and the dirty flag
untouched, and propagates the serializer's error. -/
theorem mi_pack_runs_failure_spec (sbi : NtfsSbInfo) (mi : MftInode)
    (aoff : Nat) (e : Int) (packBytes : Buf)
    (h1 : aoff + attr_size mi.mrec.buf aoff ≤ mi.mrec.used)
    (h3 : nres_run_off mi.mrec.buf aoff ≤ attr_size mi.mrec.buf aoff)
    (h32 : 32 ≤ nres_run_off mi.mrec.buf aoff) :
    (mi_pack_runs sbi mi aoff (Except.error e) packBytes).1 = e ∧
    (mi_pack_runs sbi mi aoff (Except.error e) packBytes).2.mrec.used
      = mi.mrec.used ∧
    (mi_pack_runs sbi mi aoff (Except.error e) packBytes).2.dirty = mi.dirty ∧
    (∀ i, i < aoff + nres_run_off mi.mrec.buf aoff →
      (mi_pack_runs sbi mi aoff (Except.error e) packBytes).2.mrec.buf i
        = mi.mrec.buf i) ∧
    (∀ k, k < mi.mrec.used - aoff - attr_size mi.mrec.buf aoff →
      (mi_pack_runs sbi mi aoff (Except.error e) packBytes).2.mrec.buf
          (aoff + attr_size mi.mrec.buf aoff + k)
        = mi.mrec.buf (aoff + attr_size mi.mrec.buf aoff + k)) ∧
    attr_size (mi_pack_runs sbi mi aoff (Except.error e) packBytes).2.mrec.buf
        aoff
      = attr_size mi.mrec.buf aoff ∧
    nres_evcn (mi_pack_runs sbi mi aoff (Except.error e) packBytes).2.mrec.buf
        aoff
      = nres_evcn mi.mrec.buf aoff := by
  have hbuf : (mi_pack_runs sbi mi aoff (Except.error e) packBytes).2.mrec.buf
      = memmove
          (overwrite
            (memmove mi.mrec.buf
              (aoff + attr_size mi.mrec.buf aoff
                + (sbi.record_size - mi.mrec.used))
              (aoff + attr_size mi.mrec.buf aoff)
              (mi.mrec.used - aoff - attr_size mi.mrec.buf aoff))
            (aoff + nres_run_off mi.mrec.buf aoff)
            ((attr_size mi.mrec.buf aoff - nres_run_off mi.mrec.buf aoff)
              + (sbi.record_size - mi.mrec.used)) packBytes)
          (aoff + attr_size mi.mrec.buf aoff)
          (aoff + attr_size mi.mrec.buf aoff
            + (sbi.record_size - mi.mrec.used))
          (mi.mrec.used - aoff - attr_size mi.mrec.buf aoff) := rfl
  have hout : ∀ i, i < aoff + nres_run_off mi.mrec.buf aoff →
      (mi_pack_runs sbi mi aoff (Except.error e) packBytes).2.mrec.buf i
        = mi.mrec.buf i := by
    intro i hi
    rw [hbuf, memmove_out _ _ _ _ _ (Or.inl (by omega)),
      overwrite_out _ _ _ _ _ (Or.inl (by omega)),
      memmove_out _ _ _ _ _ (Or.inl (by omega))]
  have htail : ∀ k, k < mi.mrec.used - aoff - attr_size mi.mrec.buf aoff →
      (mi_pack_runs sbi mi aoff (Except.error e) packBytes).2.mrec.buf
          (aoff + attr_size mi.mrec.buf aoff + k)
        = mi.mrec.buf (aoff + attr_size mi.mrec.buf aoff + k) := by
    intro k hk
    rw [hbuf, memmove_in _ _ _ _ _ ⟨by omega, by omega⟩]
    have e1 : aoff + attr_size mi.mrec.buf aoff
        + (sbi.record_size - mi.mrec.used)
        + (aoff + attr_size mi.mrec.buf aoff + k
          - (aoff + attr_size mi.mrec.buf aoff))
        = aoff + attr_size mi.mrec.buf aoff
          + (sbi.record_size - mi.mrec.used) + k := by omega
    rw [e1, overwrite_out _ _ _ _ _ (Or.inr (by omega)),
      memmove_in _ _ _ _ _ ⟨by omega, by omega⟩]
    have e2 : aoff + attr_size mi.mrec.buf aoff
        + (aoff + attr_size mi.mrec.buf aoff
            + (sbi.record_size - mi.mrec.used) + k
          - (aoff + attr_size mi.mrec.buf aoff
            + (sbi.record_size - mi.mrec.used)))
        = aoff + attr_size mi.mrec.buf aoff + k := by omega
    rw [e2]
  refine ⟨rfl, rfl, rfl, hout, htail, ?_, ?_⟩
  · exact le32_congr _ _ _ (fun i hi1 hi2 => hout i (by omega))
  · exact le64_congr _ _ _ (fun i hi1 hi2 => hout i (by omega))

/-- C4 witness: packing on the concrete non-resident record with a
serializer that used 10 bytes for 5 clusters. -/
theorem mi_pack_runs_success_spec_witness :
    (mi_pack_runs sbi0 nrMi 48 (Except.ok (10, 5)) (fun _ => 7)).1 = 0 ∧
    (mi_pack_runs sbi0 nrMi 48 (Except.ok (10, 5)) (fun _ => 7)).2.dirty = true ∧
    nres_evcn
        (mi_pack_runs sbi0 nrMi 48 (Except.ok (10, 5)) (fun _ => 7)).2.mrec.buf 48
      = nres_svcn nrMi.mrec.buf 48 % 4294967296 + 5 - 1 ∧
    (mi_pack_runs sbi0 nrMi 48 (Except.ok (10, 5)) (fun _ => 7)).2.mrec.used
      ≤ sbi0.record_size :=
  ⟨(mi_pack_runs_success_spec sbi0 nrMi 48 10 5 (fun _ => 7) (by decide)
      (by decide) (by decide) (by decide) (by decide) (by decide) (by decide)
      (by decide) (by decide) (by decide) (by decide)).1,
   (mi_pack_runs_success_spec sbi0 nrMi 48 10 5 (fun _ => 7) (by decide)
      (by decide) (by decide) (by decide) (by decide) (by decide) (by decide)
      (by decide) (by decide) (by decide) (by decide)).2.1,
   (mi_pack_runs_success_spec sbi0 nrMi 48 10 5 (fun _ => 7) (by decide)
      (by decide) (by decide) (by decide) (by decide) (by decide) (by decide)
      (by decide) (by decide) (by decide) (by decide)).2.2.2.2.1,
   (mi_pack_runs_success_spec sbi0 nrMi 48 10 5 (fun _ => 7) (by decide)
      (by decide) (by decide) (by decide) (by decide) (by decide) (by decide)
      (by decide) (by decide) (by decide) (by decide)).2.2.2.2.2⟩

/-- C5 witness: a failing serializer on the concrete non-resident record. -/
theorem mi_pack_runs_failure_spec_witness :
    (mi_pack_runs sbi0 nrMi 48 (Except.error (-28)) (fun _ => 7)).1 = -28 ∧
    (mi_pack_runs sbi0 nrMi 48 (Except.error (-28)) (fun _ => 7)).2.mrec.used
      = nrMi.mrec.used ∧
    (mi_pack_runs sbi0 nrMi 48 (Except.error (-28)) (fun _ => 7)).2.dirty
      = nrMi.dirty ∧
    attr_size
        (mi_pack_runs sbi0 nrMi 48 (Except.error (-28)) (fun _ => 7)).2.mrec.buf 48
      = attr_size nrMi.mrec.buf 48 ∧
    nres_evcn
        (mi_pack_runs sbi0 nrMi 48 (Except.error (-28)) (fun _ => 7)).2.mrec.buf 48
      = nres_evcn nrMi.mrec.buf 48 :=
  ⟨(mi_pack_runs_failure_spec sbi0 nrMi 48 (-28) (fun _ => 7) (by decide)
      (by decide) (by decide)).1,
   (mi_pack_runs_failure_spec sbi0 nrMi 48 (-28) (fun _ => 7) (by decide)
      (by decide) (by decide)).2.1,
   (mi_pack_runs_failure_spec sbi0 nrMi 48 (-28) (fun _ => 7) (by decide)
      (by decide) (by decide)).2.2.1,
   (mi_pack_runs_failure_spec sbi0 nrMi 48 (-28) (fun _ => 7) (by decide)
      (by decide) (by decide)).2.2.2.2.2.1,
   (mi_pack_runs_failure_spec sbi0 nrMi 48 (-28) (fun _ => 7) (by decide)
      (by decide) (by decide)).2.2.2.2.2.2⟩

/-!
Supporting facts for the fuel bounds of `attrList` and `findAux`: every
offset the enumerator returns lies below `used`, and each step advances the
offset by at least `SIZEOF_RESIDENT`, so a record enumerates at most
`used / SIZEOF_RESIDENT` attributes and fuel `used + 1` never cuts a walk
short.
-/

theorem checkAttr_some (r : MFT_REC) (off x : Nat) (h : checkAttr r off = some x) :
    x = off ∧ off + 8 ≤ r.used := by
  simp only [checkAttr] at h
  split_ifs at h
  all_goals injection h with hh
  all_goals exact ⟨hh.symm, by omega⟩

theorem mi_enum_attr_bound (r : MFT_REC) (x : Option Nat) (b : Nat)
    (h : mi_enum_attr r x = some b) :
    b < r.used ∧ ∀ a, x = some a → a + SIZEOF_RESIDENT ≤ b := by
  cases x with
  | none =>
    simp only [mi_enum_attr] at h
    split_ifs at h
    obtain ⟨hx, hb⟩ := checkAttr_some r r.attr_off b h
    exact ⟨by omega, fun a ha => by cases ha⟩
  | some a =>
    simp only [mi_enum_attr] at h
    split_ifs at h with h1 h2
    obtain ⟨hx, hb⟩ := checkAttr_some r (a + attr_size r.buf a) b h
    refine ⟨by omega, fun c hc => ?_⟩
    cases hc
    omega
